import Mathlib

/-!
Verification of the cyclemetrics track-metrics core (src/gpx.rs, src/runner.rs).

Shallow embedding conventions:
* `f64` latitude/longitude values are modelled as real numbers, since the
  Haversine distance needs trigonometric functions.
* `f64` elevation values are modelled as exact rationals, and point
  timestamps as integers (the underlying instant; `chrono`'s ordering on
  `DateTime<FixedOffset>` compares the instant, the offset never affects any
  comparison made by the code).
* Running-total loops (`total += ...`, `gain += ...`) are embedded as
  structural recursions producing the same sums.
* The fallible I/O pipeline of `App::run` (glob resolution, file open/read,
  GPX parse) is external plumbing; the run is modelled over a sequence of
  already-resolved inputs, each either a parsed document or the error the
  pipeline produced at that position, and the `?` operator becomes
  short-circuiting on `Except`.
-/

/-- A GPX track point (gpx crate `Waypoint` restricted to the fields the code
reads): latitude, longitude, optional elevation, optional timestamp. -/
structure GpxPoint where
  lat : ℝ
  lon : ℝ
  elevation : Option ℚ
  time : Option ℤ

/-- A GPX track segment: an ordered list of points. -/
structure TrackSegment where
  points : List GpxPoint

/-- A GPX track: optional name and ordered segments. -/
structure Track where
  name : Option String
  segments : List TrackSegment

/-- A parsed GPX document: ordered list of tracks. -/
structure Gpx where
  tracks : List Track

/-- Degree-to-radian conversion (`f64::to_radians`). -/
noncomputable def toRadians (deg : ℝ) : ℝ :=
  deg * (Real.pi / 180)

/-- Mean Earth radius in meters used by the geo crate's `Haversine`. -/
def MEAN_EARTH_RADIUS : ℝ := 6371008.8

/-- The `a` intermediate of the geo crate's Haversine formula between an
origin and a destination point. -/
noncomputable def haversineA (p q : GpxPoint) : ℝ :=
  Real.sin (toRadians (q.lat - p.lat) / 2) ^ 2 +
    Real.cos (toRadians p.lat) * Real.cos (toRadians q.lat) *
      Real.sin (toRadians (q.lon - p.lon) / 2) ^ 2

/-- `Haversine.distance` of the geo crate: `radius * (2 * asin (sqrt a))`.
The Rust code builds geo points with `x := lon, y := lat`; only those two
coordinates reach the distance computation, so it is taken directly on the
two track points. -/
noncomputable def haversineDistance (p q : GpxPoint) : ℝ :=
  MEAN_EARTH_RADIUS * (2 * Real.arcsin (Real.sqrt (haversineA p q)))

/-- The inner loop of `gpx_total_distance` on one segment: thread the
`last_point` option through the points, adding the Haversine distance from
the previous point to the current one. -/
noncomputable def segmentDistance : Option GpxPoint → List GpxPoint → ℝ
  | _, [] => 0
  | none, p :: ps => segmentDistance (some p) ps
  | some prev, p :: ps => haversineDistance prev p + segmentDistance (some p) ps

/-- `gpx_total_distance` (src/gpx.rs:8): sum the length of all track
segments in a GPX, the `last_point` register resetting at each segment. -/
noncomputable def gpx_total_distance (gpx : Gpx) : ℝ :=
  (gpx.tracks.map fun track =>
    (track.segments.map fun segment => segmentDistance none segment.points).sum).sum

/-- `gpx_track_name` (src/gpx.rs:29): `gpx.tracks.get(0)?.name.as_deref()` —
the name of the first track, if present. -/
def gpx_track_name (gpx : Gpx) : Option String :=
  gpx.tracks.head?.bind fun t => t.name

/-- The inner loop of `gpx_elevation_gain` on one segment: thread the
`last_elev` option through the points; points without elevation are passed
over, an elevation-bearing point adds the positive part of the difference to
the previous elevation and becomes the new `last_elev`. -/
def segmentElevationGain : Option ℚ → List GpxPoint → ℚ
  | _, [] => 0
  | last, p :: ps =>
    match p.elevation with
    | none => segmentElevationGain last ps
    | some e =>
      match last with
      | none => segmentElevationGain (some e) ps
      | some prev =>
        (if e - prev > 0 then e - prev else 0) + segmentElevationGain (some e) ps

/-- `gpx_elevation_gain` (src/gpx.rs:34): total positive elevation gain over
all tracks and segments, the `last_elev` register resetting at each
segment. -/
def gpx_elevation_gain (gpx : Gpx) : ℚ :=
  (gpx.tracks.map fun track =>
    (track.segments.map fun segment => segmentElevationGain none segment.points).sum).sum

/-- The `times` vector built by `gpx_start_end_date`: every point timestamp,
in document order. -/
def collectTimes (gpx : Gpx) : List ℤ :=
  gpx.tracks.flatMap fun track =>
    track.segments.flatMap fun segment =>
      segment.points.filterMap fun p => p.time

/-- `gpx_start_end_date` (src/gpx.rs:57): `None` when no point carries a
timestamp, otherwise the minimum and maximum collected timestamp. -/
def gpx_start_end_date (gpx : Gpx) : Option (ℤ × ℤ) :=
  match (collectTimes gpx).min?, (collectTimes gpx).max? with
  | some tmin, some tmax => some (tmin, tmax)
  | _, _ => none

/-- The error kinds of one aggregation run (src/runner.rs `App::run`): a
glob/path-resolution failure, a file open/read failure, or a GPX parse
failure; each aborts the run through the `?` operator. -/
inductive RunError where
  | pathResolution
  | ioFailure
  | parseFailure
deriving DecidableEq

/-- `f64::round`: round half away from zero. -/
def rustRound (q : ℚ) : ℤ :=
  if q < 0 then -⌊-q + 1 / 2⌋ else ⌊q + 1 / 2⌋

/-- `FileItem` (src/runner.rs:55): one record per processed file. The
`elevation` field holds the display string of the rounded gain. -/
structure FileItem where
  file_name : String
  distance : ℝ
  name : String
  date : String
  elevation : String

/-- The record `App::run` builds for one file (src/runner.rs:118-130):
kilometer distance, name defaulted to "Activity", date always
`String::new()`, rounded elevation gain. -/
noncomputable def mkFileItem (file_path : String) (gpx : Gpx) : FileItem :=
  { file_name := file_path
    distance := gpx_total_distance gpx / 1000
    name := (gpx_track_name gpx).getD "Activity"
    date := ""
    elevation := toString (rustRound (gpx_elevation_gain gpx)) }

/-- The aggregation loop of `App::run`, carrying the record list and the
running `grand_total_km` (initially empty and `0.0`); an error input aborts
the whole run with that error. -/
noncomputable def appRunGo :
    List FileItem → ℝ → List (String × Except RunError Gpx) →
      Except RunError (List FileItem × ℝ)
  | items, total, [] => Except.ok (items, total)
  | _, _, (_, Except.error e) :: _ => Except.error e
  | items, total, (fp, Except.ok gpx) :: rest =>
      appRunGo (items ++ [mkFileItem fp gpx])
        (total + gpx_total_distance gpx / 1000) rest

/-- `App::run` (src/runner.rs:104): process the resolved inputs in order. -/
noncomputable def appRun (inputs : List (String × Except RunError Gpx)) :
    Except RunError (List FileItem × ℝ) :=
  appRunGo [] 0 inputs

/-- A sample document with timestamps 5, 3 across one segment and 9 in a
second track. -/
def timedGpx : Gpx :=
  Gpx.mk
    [Track.mk none
      [TrackSegment.mk
        [GpxPoint.mk 0 0 none (some 5), GpxPoint.mk 0 0 none (some 3)]],
     Track.mk (some "evening ride")
      [TrackSegment.mk [GpxPoint.mk 0 0 none (some 9)]]]

/-! ### Elevation gain lemmas -/

/-- Points without an elevation value are invisible to the accumulator:
filtering them out changes nothing, whatever the current `last_elev`. -/
theorem segmentElevationGain_filter (last : Option ℚ) (ps : List GpxPoint) :
    segmentElevationGain last (ps.filter fun p => p.elevation.isSome) =
      segmentElevationGain last ps := by
  induction ps generalizing last with
  | nil => rfl
  | cons p ps ih =>
    cases h : p.elevation with
    | none => simp [List.filter_cons, h, segmentElevationGain, ih]
    | some e =>
      cases last with
      | none => simp [List.filter_cons, h, segmentElevationGain, ih]
      | some prev => simp [List.filter_cons, h, segmentElevationGain, ih]

/-- Each step of the accumulator adds a nonnegative quantity. -/
theorem segmentElevationGain_nonneg (last : Option ℚ) (ps : List GpxPoint) :
    0 ≤ segmentElevationGain last ps := by
  induction ps generalizing last with
  | nil => simp [segmentElevationGain]
  | cons p ps ih =>
    cases h : p.elevation with
    | none => simpa [segmentElevationGain, h] using ih last
    | some e =>
      cases last with
      | none => simpa [segmentElevationGain, h] using ih (some e)
      | some prev =>
        have h1 : (0:ℚ) ≤ if e - prev > 0 then e - prev else 0 := by
          split
          · linarith
          · exact le_refl 0
        have h2 := ih (some e)
        simp only [segmentElevationGain, h]
        linarith

theorem gpx_elevation_gain_nonneg (gpx : Gpx) : 0 ≤ gpx_elevation_gain gpx := by
  unfold gpx_elevation_gain
  refine List.sum_nonneg fun x hx => ?_
  obtain ⟨t, _, rfl⟩ := List.mem_map.mp hx
  refine List.sum_nonneg fun y hy => ?_
  obtain ⟨s, _, rfl⟩ := List.mem_map.mp hy
  exact segmentElevationGain_nonneg none s.points

/-- With `last_elev = some prev` and a non-increasing chain of elevations
ahead, the accumulator never adds anything. -/
theorem segmentElevationGain_of_antitone (ps : List GpxPoint) (es : List ℚ)
    (prev : ℚ) (hmap : ps.map (fun p => p.elevation) = es.map some)
    (hchain : List.Chain' (fun a b => b ≤ a) (prev :: es)) :
    segmentElevationGain (some prev) ps = 0 := by
  induction ps generalizing es prev with
  | nil =>
    simp [segmentElevationGain]
  | cons p ps ih =>
    cases es with
    | nil => simp at hmap
    | cons e es =>
      simp only [List.map_cons, List.cons.injEq] at hmap
      obtain ⟨hp, hps⟩ := hmap
      rw [List.chain'_cons] at hchain
      obtain ⟨hle, hchain⟩ := hchain
      have hif : ¬ (e - prev > 0) := by linarith
      simp only [segmentElevationGain, hp, if_neg hif, zero_add]
      exact ih es e hps hchain

/-- With `last_elev = some prev` and a strictly increasing chain of
elevations ahead, the accumulator telescopes to `last − prev`. -/
theorem segmentElevationGain_of_strictMono (ps : List GpxPoint) (es : List ℚ)
    (prev : ℚ) (hmap : ps.map (fun p => p.elevation) = es.map some)
    (hchain : List.Chain' (fun a b => a < b) (prev :: es)) :
    segmentElevationGain (some prev) ps =
      (prev :: es).getLast (List.cons_ne_nil prev es) - prev := by
  induction ps generalizing es prev with
  | nil =>
    cases es with
    | nil => simp [segmentElevationGain]
    | cons e es => simp at hmap
  | cons p ps ih =>
    cases es with
    | nil => simp at hmap
    | cons e es =>
      simp only [List.map_cons, List.cons.injEq] at hmap
      obtain ⟨hp, hps⟩ := hmap
      rw [List.chain'_cons] at hchain
      obtain ⟨hlt, hchain⟩ := hchain
      have hif : e - prev > 0 := by linarith
      have hlast : (prev :: e :: es).getLast (List.cons_ne_nil prev (e :: es)) =
          (e :: es).getLast (List.cons_ne_nil e es) := by
        simp [List.getLast_cons]
      simp only [segmentElevationGain, hp, if_pos hif, hlast,
        ih es e hps hchain]
      ring

/-- Claim C2: the elevation accumulator skips points without an elevation
value without resetting the last-observed elevation — removing the gap
points never changes the result — and the concrete segment with elevation
sequence [100, (no elevation), 130] yields a gain of 30. -/
theorem elevation_gap_keeps_baseline :
    (∀ (last : Option ℚ) (ps : List GpxPoint),
      segmentElevationGain last ps =
        segmentElevationGain last (ps.filter fun p => p.elevation.isSome)) ∧
    gpx_elevation_gain
      (Gpx.mk [Track.mk none [TrackSegment.mk
        [GpxPoint.mk 0 0 (some 100) none,
         GpxPoint.mk 0 0 none none,
         GpxPoint.mk 0 0 (some 130) none]]]) = 30 := by
  constructor
  · intro last ps
    exact (segmentElevationGain_filter last ps).symm
  · simp only [gpx_elevation_gain, List.map_cons, List.map_nil,
      List.sum_cons, List.sum_nil, segmentElevationGain, add_zero]
    norm_num

/-- Claim C7: elevation gain is nonnegative for every document; a segment
whose elevation sequence is (strictly or not) non-increasing yields gain 0;
a segment whose elevation sequence is strictly increasing yields gain
last − first. -/
theorem elevation_gain_shape :
    (∀ gpx : Gpx, 0 ≤ gpx_elevation_gain gpx) ∧
    (∀ (ps : List GpxPoint) (es : List ℚ),
      ps.map (fun p => p.elevation) = es.map some →
      List.Chain' (fun a b => b ≤ a) es →
      segmentElevationGain none ps = 0) ∧
    (∀ (ps : List GpxPoint) (e : ℚ) (es : List ℚ),
      ps.map (fun p => p.elevation) = (e :: es).map some →
      List.Chain' (fun a b => a < b) (e :: es) →
      segmentElevationGain none ps =
        (e :: es).getLast (List.cons_ne_nil e es) - e) := by
  refine ⟨gpx_elevation_gain_nonneg, ?_, ?_⟩
  · intro ps es hmap hchain
    cases ps with
    | nil => simp [segmentElevationGain]
    | cons p ps =>
      cases es with
      | nil => simp at hmap
      | cons e es =>
        simp only [List.map_cons, List.cons.injEq] at hmap
        obtain ⟨hp, hps⟩ := hmap
        simp only [segmentElevationGain, hp]
        exact segmentElevationGain_of_antitone ps es e hps hchain
  · intro ps e es hmap hchain
    cases ps with
    | nil => simp at hmap
    | cons p ps =>
      simp only [List.map_cons, List.cons.injEq] at hmap
      obtain ⟨hp, hps⟩ := hmap
      simp only [segmentElevationGain, hp]
      rw [segmentElevationGain_of_strictMono ps es e hps hchain]

theorem elevation_gain_shape_witness :
    segmentElevationGain none
      [GpxPoint.mk 0 0 (some 150) none, GpxPoint.mk 0 0 (some 120) none,
       GpxPoint.mk 0 0 (some 120) none] = 0 ∧
    segmentElevationGain none
      [GpxPoint.mk 0 0 (some 100) none, GpxPoint.mk 0 0 (some 150) none,
       GpxPoint.mk 0 0 (some 200) none] = 200 - 100 :=
  ⟨elevation_gain_shape.2.1 _ [150, 120, 120] rfl (by simp +decide [List.chain'_cons]),
   elevation_gain_shape.2.2 _ 100 [150, 200] rfl (by simp +decide [List.chain'_cons])⟩

/-- Claim C8: the track-name resolver returns the name of the first track in
document order; it is absent exactly when the document has no tracks or its
first track has no name; the remaining tracks never affect the result. -/
theorem track_name_first_track :
    (∀ (t : Track) (ts : List Track), gpx_track_name (Gpx.mk (t :: ts)) = t.name) ∧
    (∀ gpx : Gpx, gpx_track_name gpx = none ↔
      (gpx.tracks = [] ∨ ∃ t ts, gpx.tracks = t :: ts ∧ t.name = none)) ∧
    (∀ (t : Track) (ts ts' : List Track),
      gpx_track_name (Gpx.mk (t :: ts)) = gpx_track_name (Gpx.mk (t :: ts'))) := by
  refine ⟨fun t ts => rfl, ?_, fun t ts ts' => rfl⟩
  intro gpx
  obtain ⟨tracks⟩ := gpx
  cases tracks with
  | nil => simp [gpx_track_name]
  | cons t ts =>
    simp only [gpx_track_name, List.head?_cons, Option.bind_some]
    constructor
    · intro h
      exact Or.inr ⟨t, ts, rfl, h⟩
    · rintro (h | ⟨t', ts', heq, hname⟩)
      · exact absurd h (List.cons_ne_nil t ts)
      · cases heq
        exact hname

/-- Claim C10: a present-but-empty first-track name is returned as the empty
string and used verbatim as the record's display name; the "Activity"
fallback is applied exactly when the resolver's result is absent. -/
theorem empty_track_name_not_fallback :
    (∀ (fp : String) (gpx : Gpx),
      (mkFileItem fp gpx).name = (gpx_track_name gpx).getD "Activity") ∧
    (∀ (segs : List TrackSegment) (ts : List Track),
      gpx_track_name (Gpx.mk (Track.mk (some "") segs :: ts)) = some "") ∧
    (∀ (fp : String) (segs : List TrackSegment) (ts : List Track),
      (mkFileItem fp (Gpx.mk (Track.mk (some "") segs :: ts))).name = "") ∧
    (∀ (fp : String) (gpx : Gpx), gpx_track_name gpx = none →
      (mkFileItem fp gpx).name = "Activity") := by
  refine ⟨fun fp gpx => rfl, fun segs ts => rfl, fun fp segs ts => rfl, ?_⟩
  intro fp gpx h
  simp [mkFileItem, h]

theorem empty_track_name_not_fallback_witness :
    gpx_track_name (Gpx.mk []) = none ∧
    (mkFileItem "ride.gpx" (Gpx.mk [])).name = "Activity" :=
  ⟨rfl, empty_track_name_not_fallback.2.2.2 "ride.gpx" (Gpx.mk []) rfl⟩

/-! ### Time range lemmas -/

theorem collectTimes_eq_nil_iff (gpx : Gpx) :
    collectTimes gpx = [] ↔
      ∀ t ∈ gpx.tracks, ∀ s ∈ t.segments, ∀ p ∈ s.points, p.time = none := by
  simp [collectTimes, List.flatMap_eq_nil_iff, List.filterMap_eq_nil_iff]

theorem mem_collectTimes_iff (gpx : Gpx) (x : ℤ) :
    x ∈ collectTimes gpx ↔
      ∃ t ∈ gpx.tracks, ∃ s ∈ t.segments, ∃ p ∈ s.points, p.time = some x := by
  simp [collectTimes, List.mem_flatMap, List.mem_filterMap]

theorem intAntisymm : Std.Antisymm ((· : ℤ) ≤ ·) :=
  ⟨fun h h' => le_antisymm h h'⟩

theorem int_min?_eq_some_iff {a : ℤ} {xs : List ℤ} :
    xs.min? = some a ↔ a ∈ xs ∧ ∀ b ∈ xs, a ≤ b := by
  haveI := intAntisymm
  exact List.min?_eq_some_iff (fun a => le_refl a) (fun a b => min_choice a b)
    (fun a b c => le_min_iff)

theorem int_max?_eq_some_iff {a : ℤ} {xs : List ℤ} :
    xs.max? = some a ↔ a ∈ xs ∧ ∀ b ∈ xs, b ≤ a := by
  haveI := intAntisymm
  exact List.max?_eq_some_iff (fun a => le_refl a) (fun a b => max_choice a b)
    (fun a b c => max_le_iff)

theorem gpx_start_end_date_eq_none_iff (gpx : Gpx) :
    gpx_start_end_date gpx = none ↔ collectTimes gpx = [] := by
  unfold gpx_start_end_date
  cases h : collectTimes gpx with
  | nil => simp
  | cons x xs => simp [List.min?_cons, List.max?_cons]

/-- Claim C5: the time-range extractor is absent iff no point in the
document carries a timestamp; when present it returns the minimum and
maximum timestamp over all tracks and segments, and start ≤ end. -/
theorem time_range_extractor :
    (∀ gpx : Gpx, gpx_start_end_date gpx = none ↔
      ∀ t ∈ gpx.tracks, ∀ s ∈ t.segments, ∀ p ∈ s.points, p.time = none) ∧
    (∀ (gpx : Gpx) (a b : ℤ), gpx_start_end_date gpx = some (a, b) →
      a ≤ b ∧ (a ∈ collectTimes gpx ∧ ∀ x ∈ collectTimes gpx, a ≤ x) ∧
        (b ∈ collectTimes gpx ∧ ∀ x ∈ collectTimes gpx, x ≤ b)) ∧
    (∀ (gpx : Gpx) (x : ℤ), x ∈ collectTimes gpx ↔
      ∃ t ∈ gpx.tracks, ∃ s ∈ t.segments, ∃ p ∈ s.points, p.time = some x) := by
  refine ⟨fun gpx => (gpx_start_end_date_eq_none_iff gpx).trans
    (collectTimes_eq_nil_iff gpx), ?_, mem_collectTimes_iff⟩
  intro gpx a b h
  cases hmin : (collectTimes gpx).min? with
  | none => simp [gpx_start_end_date, hmin] at h
  | some tmin =>
    cases hmax : (collectTimes gpx).max? with
    | none => simp [gpx_start_end_date, hmin, hmax] at h
    | some tmax =>
      simp only [gpx_start_end_date, hmin, hmax, Option.some.injEq,
        Prod.mk.injEq] at h
      obtain ⟨rfl, rfl⟩ := h
      obtain ⟨hamem, hale⟩ := int_min?_eq_some_iff.mp hmin
      obtain ⟨hbmem, hble⟩ := int_max?_eq_some_iff.mp hmax
      exact ⟨hale tmax hbmem, ⟨hamem, hale⟩, ⟨hbmem, hble⟩⟩

theorem time_range_extractor_witness :
    gpx_start_end_date timedGpx = some (3, 9) ∧
    ((3:ℤ) ≤ 9 ∧ ((3:ℤ) ∈ collectTimes timedGpx ∧ ∀ x ∈ collectTimes timedGpx, 3 ≤ x) ∧
      ((9:ℤ) ∈ collectTimes timedGpx ∧ ∀ x ∈ collectTimes timedGpx, x ≤ 9)) :=
  ⟨by decide, time_range_extractor.2.1 timedGpx 3 9 (by decide)⟩

/-! ### Distance lemmas -/

/-- The Haversine `a` term is symmetric in its two endpoints. -/
theorem haversineA_symm (p q : GpxPoint) : haversineA p q = haversineA q p := by
  have hlat : toRadians (p.lat - q.lat) = -(toRadians (q.lat - p.lat)) := by
    unfold toRadians; ring
  have hlon : toRadians (p.lon - q.lon) = -(toRadians (q.lon - p.lon)) := by
    unfold toRadians; ring
  unfold haversineA
  rw [hlat, hlon, neg_div, neg_div, Real.sin_neg, Real.sin_neg, neg_sq, neg_sq]
  ring

/-- The Haversine distance is symmetric in its two endpoints. -/
theorem haversineDistance_symm (p q : GpxPoint) :
    haversineDistance p q = haversineDistance q p := by
  unfold haversineDistance
  rw [haversineA_symm]

/-- The Haversine distance is nonnegative. -/
theorem haversineDistance_nonneg (p q : GpxPoint) : 0 ≤ haversineDistance p q := by
  unfold haversineDistance
  have h1 : 0 ≤ Real.arcsin (Real.sqrt (haversineA p q)) :=
    Real.arcsin_nonneg.mpr (Real.sqrt_nonneg _)
  have h2 : (0:ℝ) ≤ MEAN_EARTH_RADIUS := by unfold MEAN_EARTH_RADIUS; norm_num
  positivity

/-- The sum of Haversine distances over the consecutive pairs of a list. -/
noncomputable def consecutiveSum : List GpxPoint → ℝ
  | [] => 0
  | [_] => 0
  | a :: b :: rest => haversineDistance a b + consecutiveSum (b :: rest)

theorem segmentDistance_some_eq (ps : List GpxPoint) (q : GpxPoint) :
    segmentDistance (some q) ps = consecutiveSum (q :: ps) := by
  induction ps generalizing q with
  | nil => simp [segmentDistance, consecutiveSum]
  | cons p ps ih => simp [segmentDistance, consecutiveSum, ih]

theorem segmentDistance_none_eq (ps : List GpxPoint) :
    segmentDistance none ps = consecutiveSum ps := by
  cases ps with
  | nil => simp [segmentDistance, consecutiveSum]
  | cons p ps => simp [segmentDistance, segmentDistance_some_eq]

theorem consecutiveSum_nonneg (ps : List GpxPoint) : 0 ≤ consecutiveSum ps := by
  induction ps with
  | nil => simp [consecutiveSum]
  | cons a ps ih =>
    cases ps with
    | nil => simp [consecutiveSum]
    | cons b rest =>
      simp only [consecutiveSum]
      have := haversineDistance_nonneg a b
      linarith

theorem consecutiveSum_append_pair (x y : GpxPoint) (l : List GpxPoint) :
    consecutiveSum (l ++ [x, y]) =
      consecutiveSum (l ++ [x]) + haversineDistance x y := by
  induction l with
  | nil => simp [consecutiveSum]
  | cons c l ih =>
    cases l with
    | nil => simp [consecutiveSum]
    | cons d rest =>
      simp only [List.cons_append, List.append_eq, consecutiveSum] at ih ⊢
      rw [ih]
      ring

theorem consecutiveSum_reverse (ps : List GpxPoint) :
    consecutiveSum ps.reverse = consecutiveSum ps := by
  induction ps with
  | nil => rfl
  | cons a ps ih =>
    cases ps with
    | nil => rfl
    | cons b rest =>
      have hrw : (a :: b :: rest).reverse = rest.reverse ++ [b, a] := by
        simp
      rw [hrw, consecutiveSum_append_pair]
      have hrw2 : rest.reverse ++ [b] = (b :: rest).reverse := by simp
      rw [hrw2, ih, consecutiveSum, haversineDistance_symm]
      ring

/-- Claim C4: reversing the point order of any one segment of the document
leaves the total distance unchanged. -/
theorem distance_reverse_invariant (pre post : List Track) (nm : Option String)
    (segs1 segs2 : List TrackSegment) (pts : List GpxPoint) :
    gpx_total_distance
      (Gpx.mk (pre ++ Track.mk nm (segs1 ++ TrackSegment.mk pts.reverse :: segs2) :: post)) =
    gpx_total_distance
      (Gpx.mk (pre ++ Track.mk nm (segs1 ++ TrackSegment.mk pts :: segs2) :: post)) := by
  simp [gpx_total_distance, List.map_append, List.sum_append,
    segmentDistance_none_eq, consecutiveSum_reverse]

/-- Claim C6: the total distance is nonnegative for every document, and a
document consisting of a single segment with fewer than two points has
total distance zero. -/
theorem distance_nonneg_and_short_segment :
    (∀ gpx : Gpx, 0 ≤ gpx_total_distance gpx) ∧
    (∀ (nm : Option String) (pts : List GpxPoint), pts.length < 2 →
      gpx_total_distance (Gpx.mk [Track.mk nm [TrackSegment.mk pts]]) = 0) := by
  constructor
  · intro gpx
    unfold gpx_total_distance
    refine List.sum_nonneg fun x hx => ?_
    obtain ⟨t, _, rfl⟩ := List.mem_map.mp hx
    refine List.sum_nonneg fun y hy => ?_
    obtain ⟨s, _, rfl⟩ := List.mem_map.mp hy
    rw [segmentDistance_none_eq]
    exact consecutiveSum_nonneg s.points
  · intro nm pts h
    cases pts with
    | nil => simp [gpx_total_distance, segmentDistance]
    | cons p ps =>
      cases ps with
      | nil => simp [gpx_total_distance, segmentDistance]
      | cons q qs => simp at h; omega

theorem distance_nonneg_and_short_segment_witness :
    ([GpxPoint.mk 0 0 none none] : List GpxPoint).length < 2 ∧
    gpx_total_distance
      (Gpx.mk [Track.mk none [TrackSegment.mk [GpxPoint.mk 0 0 none none]]]) = 0 :=
  ⟨by decide,
   distance_nonneg_and_short_segment.2 none [GpxPoint.mk 0 0 none none] (by decide)⟩

/-! ### Aggregator lemmas -/

theorem appRunGo_all_ok (inputs : List (String × Gpx)) (items : List FileItem)
    (total : ℝ) :
    appRunGo items total (inputs.map fun x => (x.1, Except.ok x.2)) =
      Except.ok (items ++ inputs.map fun x => mkFileItem x.1 x.2,
        total + (inputs.map fun x => gpx_total_distance x.2 / 1000).sum) := by
  induction inputs generalizing items total with
  | nil => simp [appRunGo]
  | cons x rest ih =>
    simp only [List.map_cons, appRunGo, ih, List.append_assoc,
      List.singleton_append, List.sum_cons, add_assoc]

theorem appRunGo_first_error (pre : List (String × Gpx)) (fp : String)
    (e : RunError) (post : List (String × Except RunError Gpx))
    (items : List FileItem) (total : ℝ) :
    appRunGo items total
      ((pre.map fun x => (x.1, Except.ok x.2)) ++ (fp, Except.error e) :: post) =
      Except.error e := by
  induction pre generalizing items total with
  | nil => rfl
  | cons x rest ih =>
    simp only [List.map_cons, List.cons_append, appRunGo]
    exact ih _ _

/-- Claim C3: the aggregator emits exactly one record per file, in input
order; each record's kilometer distance is the meter distance divided by
1000; and the grand total is the sum of the per-file kilometer distances. -/
theorem aggregator_records_and_grand_total :
    (∀ inputs : List (String × Gpx),
      appRun (inputs.map fun x => (x.1, Except.ok x.2)) =
        Except.ok (inputs.map fun x => mkFileItem x.1 x.2,
          (inputs.map fun x => gpx_total_distance x.2 / 1000).sum)) ∧
    (∀ (fp : String) (gpx : Gpx),
      (mkFileItem fp gpx).distance = gpx_total_distance gpx / 1000) := by
  constructor
  · intro inputs
    rw [appRun, appRunGo_all_ok]
    simp
  · intro fp gpx
    rfl

/-- Claim C9: the first failure of any kind aborts the whole run — whatever
documents were already processed and whatever inputs remain — and that
error is what the caller receives. -/
theorem first_failure_aborts_run (pre : List (String × Gpx)) (fp : String)
    (e : RunError) (post : List (String × Except RunError Gpx)) :
    appRun ((pre.map fun x => (x.1, Except.ok x.2)) ++ (fp, Except.error e) :: post) =
      Except.error e :=
  appRunGo_first_error pre fp e post [] 0

/-- Claim C1 counterexample: on a document that does contain timestamped
points, the record's date field is still the empty string, refuting "the
date field is empty exactly when the document has no timestamps". -/
theorem date_field_counterexample :
    ¬ (((mkFileItem "ride.gpx" timedGpx).date = "") ↔
        gpx_start_end_date timedGpx = none) := by
  intro h
  have h2 : gpx_start_end_date timedGpx = some (3, 9) := by decide
  rw [h2] at h
  exact Option.some_ne_none _ (h.mp rfl)

/-- Claim C1 (amended): the aggregator never formats a start date — the
record's date field is the empty string for every input file, whether or
not the document carries timestamps (`gpx_start_end_date` is never called
by `App::run`). -/
theorem date_field_always_empty (fp : String) (gpx : Gpx) :
    (mkFileItem fp gpx).date = "" :=
  rfl
